import Mathlib

/-!
Shallow embedding of the cart/checkout subsystem of `src/main.py`
(FastAPI + MongoDB e-commerce backend).

Modelling conventions:
* Each MongoDB collection is a list of documents; `find_one` is `List.find?`
  (first match), `update_one` rewrites the first matching document,
  `delete_one` removes the first matching document, `insert_one` appends.
* BSON `ObjectId(s)` parsing: a string parses iff it is 24 hexadecimal
  characters; parsing normalises to lowercase (bson treats hex case-insensitively
  and renders lowercase).
* Python `float` prices are modelled as exact integers (`Int`); every claim
  under verification is an algebraic identity between the program's own
  computations, independent of the numeric representation's rounding.
* An `HTTPException` is a caught, client-facing error; an uncaught Python
  exception escaping the handler (the `InvalidId` raised by `ObjectId` on a
  stored `productId` outside any `try`) is modelled as the distinct error
  value `uncaughtInvalidId`.
* Every endpoint returns the resulting database state alongside its
  `Except` result, because an aborted request still leaves behind every
  mutation it already performed (checkout's per-line stock decrements).
-/

def isHexChar (c : Char) : Bool :=
  (('0' ≤ c) && (c ≤ '9')) || (('a' ≤ c) && (c ≤ 'f')) || (('A' ≤ c) && (c ≤ 'F'))

/-- The bson ObjectId constructor succeeds iff the string is 24 hex characters. -/
def isValidObjectId (s : String) : Bool :=
  s.length == 24 && s.data.all isHexChar

/-- Lowercase an uppercase hex digit (the only uppercase characters a
validated ObjectId string can contain). -/
def lowerHexChar (c : Char) : Char :=
  if c = 'A' then 'a' else if c = 'B' then 'b' else if c = 'C' then 'c'
  else if c = 'D' then 'd' else if c = 'E' then 'e' else if c = 'F' then 'f' else c

/-- Parsing a string as an ObjectId: the canonical (lowercase) id on
success, or failure (the InvalidId exception). -/
def parseOId (s : String) : Option String :=
  if isValidObjectId s then some ⟨s.data.map lowerHexChar⟩ else none

instance {ε α : Type} [DecidableEq ε] [DecidableEq α] : DecidableEq (Except ε α) :=
  fun a b =>
  match a, b with
  | .error e1, .error e2 =>
    match decEq e1 e2 with
    | isTrue h => isTrue (h ▸ rfl)
    | isFalse h => isFalse (fun hc => h (by cases hc; rfl))
  | .ok a1, .ok a2 =>
    match decEq a1 a2 with
    | isTrue h => isTrue (h ▸ rfl)
    | isFalse h => isFalse (fun hc => h (by cases hc; rfl))
  | .error _, .ok _ => isFalse (fun hc => by cases hc)
  | .ok _, .error _ => isFalse (fun hc => by cases hc)

structure ProductDoc where
  oid : String
  name : String
  description : String
  price : Int
  stock : Int
deriving Repr, DecidableEq

structure CartItem where
  productId : String
  quantity : Int
deriving Repr, DecidableEq

structure CartDoc where
  user_id : String
  items : List CartItem
deriving Repr, DecidableEq

structure OrderLine where
  productId : String
  quantity : Int
deriving Repr, DecidableEq

structure OrderDoc where
  user_id : String
  products : List OrderLine
  total : Int
deriving Repr, DecidableEq

structure UserDoc where
  name : String
  email : String
  password : String
deriving Repr, DecidableEq

structure DB where
  users : List UserDoc
  products : List ProductDoc
  carts : List CartDoc
  orders : List OrderDoc
deriving Repr, DecidableEq

inductive ApiError where
  /-- HTTP 400, invalid user ID format. -/
  | invalidUserId
  /-- HTTP 400, cart is empty. -/
  | emptyCart
  /-- HTTP 400, not enough stock for the named product. -/
  | insufficientStock (name : String)
  /-- An uncaught InvalidId exception escaping the handler. -/
  | uncaughtInvalidId
deriving Repr, DecidableEq

/-- Mongo find_one on the products collection, keyed by id. -/
def findProduct (products : List ProductDoc) (pid : String) : Option ProductDoc :=
  products.find? (fun p => p.oid == pid)

/-- Mongo find_one on the carts collection, keyed by user id. -/
def findCart (carts : List CartDoc) (uid : String) : Option CartDoc :=
  carts.find? (fun c => c.user_id == uid)

/-- Mongo positional increment on an items array: bump the quantity of the
first element whose productId equals pid. -/
def incItemQty (items : List CartItem) (pid : String) (q : Int) : List CartItem :=
  match items with
  | [] => []
  | i :: rest =>
    if i.productId == pid then { i with quantity := i.quantity + q } :: rest
    else i :: incItemQty rest pid q

/-- Mongo update_one with the combined filter (user id and an item line with
this product id): rewrite the first cart matching both conditions, bumping
the matched line's quantity. -/
def incFirstMatching (carts : List CartDoc) (uid pid : String) (q : Int) : List CartDoc :=
  match carts with
  | [] => []
  | c :: rest =>
    if c.user_id == uid && c.items.any (fun i => i.productId == pid) then
      { c with items := incItemQty c.items pid q } :: rest
    else c :: incFirstMatching rest uid pid q

/-- Mongo upserting push: append the item to the items array of the first
cart with this user id, creating the cart document when none exists. -/
def pushItem (carts : List CartDoc) (uid : String) (item : CartItem) : List CartDoc :=
  match carts with
  | [] => [⟨uid, [item]⟩]
  | c :: rest =>
    if c.user_id == uid then { c with items := c.items ++ [item] } :: rest
    else c :: pushItem rest uid item

/-- Endpoint POST /cart (`add_to_cart` in `src/main.py`). Only `user_id` is
parsed; `item.productId` is used as a raw string. -/
def add_to_cart (db : DB) (user_id : String) (item : CartItem) :
    Except ApiError String × DB :=
  match parseOId user_id with
  | none => (.error .invalidUserId, db)
  | some uid =>
    match db.carts.find?
        (fun c => c.user_id == uid && c.items.any (fun i => i.productId == item.productId)) with
    | some _ =>
      (.ok "Item added to cart",
        { db with carts := incFirstMatching db.carts uid item.productId item.quantity })
    | none =>
      (.ok "Item added to cart",
        { db with carts := pushItem db.carts uid item })

structure CartLineView where
  product_id : String
  name : String
  quantity : Int
  unit_price : Int
  subtotal : Int
deriving Repr, DecidableEq

structure CartView where
  products : List CartLineView
  total : Int
deriving Repr, DecidableEq

/-- The enrichment loop of `get_cart`: per line, `ObjectId(item["productId"])`
(uncaught `InvalidId` when unparseable), then the product lookup, skipping
missing products. -/
def enrichItems (products : List ProductDoc) :
    List CartItem → Except ApiError (List CartLineView × Int)
  | [] => .ok ([], 0)
  | item :: rest =>
    match parseOId item.productId with
    | none => .error .uncaughtInvalidId
    | some pid =>
      match findProduct products pid with
      | none => enrichItems products rest
      | some p =>
        match enrichItems products rest with
        | .error e => .error e
        | .ok (views, tot) =>
          .ok (⟨p.oid, p.name, item.quantity, p.price, p.price * item.quantity⟩ :: views,
               p.price * item.quantity + tot)

/-- Endpoint GET /cart (`get_cart` in `src/main.py`). Read-only: the
returned state is the input state on every path. -/
def get_cart (db : DB) (user_id : String) : Except ApiError CartView × DB :=
  match parseOId user_id with
  | none => (.error .invalidUserId, db)
  | some uid =>
    match findCart db.carts uid with
    | none => (.ok ⟨[], 0⟩, db)
    | some cart =>
      if cart.items.isEmpty then (.ok ⟨[], 0⟩, db)
      else
        match enrichItems db.products cart.items with
        | .error e => (.error e, db)
        | .ok (views, tot) => (.ok ⟨views, tot⟩, db)

/-- Mongo update_one decrementing the stock of the first product with this id. -/
def decStock (products : List ProductDoc) (pid : String) (q : Int) : List ProductDoc :=
  match products with
  | [] => []
  | p :: rest =>
    if p.oid == pid then { p with stock := p.stock - q } :: rest
    else p :: decStock rest pid q

/-- Outcome of the checkout line loop; the products collection is carried on
failure too, because the decrements already applied persist. -/
inductive LoopResult where
  | ok (lines : List OrderLine) (total : Int) (products : List ProductDoc)
  | fail (e : ApiError) (products : List ProductDoc)
deriving Repr, DecidableEq

/-- The per-line loop of `checkout`: parse the stored `productId` (uncaught
`InvalidId` if unparseable), skip missing products, abort on insufficient
stock, otherwise record the order line and decrement stock immediately. -/
def checkoutLoop (products : List ProductDoc) : List CartItem → LoopResult
  | [] => .ok [] 0 products
  | item :: rest =>
    match parseOId item.productId with
    | none => .fail .uncaughtInvalidId products
    | some pid =>
      match findProduct products pid with
      | none => checkoutLoop products rest
      | some p =>
        if p.stock < item.quantity then .fail (.insufficientStock p.name) products
        else
          match checkoutLoop (decStock products pid item.quantity) rest with
          | .ok lines tot ps =>
            .ok (⟨item.productId, item.quantity⟩ :: lines) (p.price * item.quantity + tot) ps
          | .fail e ps => .fail e ps

/-- `delete_one({"user_id": uid})`. -/
def eraseCart (carts : List CartDoc) (uid : String) : List CartDoc :=
  match carts with
  | [] => []
  | c :: rest => if c.user_id == uid then rest else c :: eraseCart rest uid

structure CheckoutResp where
  order_id : Nat
  total : Int
deriving Repr, DecidableEq

/-- Endpoint POST /checkout (`checkout` in `src/main.py`). The generated
order id is modelled as the orders collection's prior length. -/
def checkout (db : DB) (user_id : String) : Except ApiError CheckoutResp × DB :=
  match parseOId user_id with
  | none => (.error .invalidUserId, db)
  | some uid =>
    match findCart db.carts uid with
    | none => (.error .emptyCart, db)
    | some cart =>
      if cart.items.isEmpty then (.error .emptyCart, db)
      else
        match checkoutLoop db.products cart.items with
        | .fail e ps => (.error e, { db with products := ps })
        | .ok lines tot ps =>
          (.ok ⟨db.orders.length, tot⟩,
            { db with
                products := ps,
                orders := db.orders ++ [⟨uid, lines, tot⟩],
                carts := eraseCart db.carts uid })

/-! ### Specification-side helper definitions -/

/-- The total `get_cart` describes: sum over cart lines whose referenced
product exists of `price * quantity`. -/
def cartTotal (products : List ProductDoc) (items : List CartItem) : Int :=
  (items.map (fun item =>
    match (parseOId item.productId).bind (findProduct products) with
    | none => 0
    | some p => p.price * item.quantity)).sum

/-- The enriched view of a single cart line, or `none` for a dangling line. -/
def enrichLine (products : List ProductDoc) (item : CartItem) : Option CartLineView :=
  ((parseOId item.productId).bind (findProduct products)).map
    (fun p => ⟨p.oid, p.name, item.quantity, p.price, p.price * item.quantity⟩)

/-- The stock decrements that processing the given lines applies (existing
products only), used to describe checkout's partially-mutated failure states. -/
def applyDecs (products : List ProductDoc) : List CartItem → List ProductDoc
  | [] => products
  | item :: rest =>
    match parseOId item.productId with
    | none => products
    | some pid =>
      match findProduct products pid with
      | none => applyDecs products rest
      | some _ => applyDecs (decStock products pid item.quantity) rest

/-- Quantity summed over the cart lines referencing product `x`. -/
def lineQty (x : String) (items : List CartItem) : Int :=
  ((items.filter (fun i => parseOId i.productId == some x)).map (·.quantity)).sum

/-- At most one cart document per user (the data-model invariant). -/
def uniqueCartUsers (carts : List CartDoc) : Prop :=
  (carts.map (·.user_id)).Nodup

/-- The items of the user's cart (empty when absent). -/
def cartItemsOf (db : DB) (uid : String) : List CartItem :=
  match findCart db.carts uid with
  | none => []
  | some c => c.items

/-- The quantity stored on the (first) cart line for `pid` in `uid`'s cart. -/
def storedQty (db : DB) (uid pid : String) : Option Int :=
  (findCart db.carts uid).bind
    (fun c => (c.items.find? (fun i => i.productId == pid)).map (·.quantity))

/-- A sequence of `add_to_cart` calls for a fixed user and product. -/
def addSeq (db : DB) (user_id productId : String) (qs : List Int) : DB :=
  qs.foldl (fun d q => (add_to_cart d user_id ⟨productId, q⟩).2) db

/-! ### Concrete fixtures used by witnesses and counterexamples -/

def uidW : String := "0123456789abcdef01234567"
def pidW1 : String := "aaaaaaaaaaaaaaaaaaaaaaaa"
def pidW2 : String := "bbbbbbbbbbbbbbbbbbbbbbbb"

def prodW1 : ProductDoc := ⟨pidW1, "P1", "d", 10, 5⟩
def prodW2 : ProductDoc := ⟨pidW2, "P2", "d", 3, 2⟩

/-- One product, one-line cart: checkout succeeds. -/
def dbW1 : DB := ⟨[], [prodW1, prodW2], [⟨uidW, [⟨pidW1, 2⟩]⟩], []⟩

/-- The state `dbW1` reaches after a successful checkout. -/
def dbW1' : DB := ⟨[], [⟨pidW1, "P1", "d", 10, 3⟩, prodW2], [], [⟨uidW, [⟨pidW1, 2⟩], 20⟩]⟩

/-- Two-line cart; the second line exceeds stock: checkout fails after the
first line's decrement. -/
def dbW2 : DB := ⟨[], [prodW1, prodW2], [⟨uidW, [⟨pidW1, 2⟩, ⟨pidW2, 10⟩]⟩], []⟩

/-- Empty store. -/
def dbW3 : DB := ⟨[], [], [], []⟩

/-- A cart whose one line references a product that does not exist. -/
def dbW4 : DB := ⟨[], [], [⟨uidW, [⟨pidW1, 2⟩]⟩], []⟩

/-- A cart whose one line stores an unparseable productId. -/
def dbW5 : DB := ⟨[], [], [⟨uidW, [⟨"junk", 2⟩]⟩], []⟩

/-! ### Basic lemmas about the store operations -/

theorem findProduct_cons (p : ProductDoc) (rest : List ProductDoc) (x : String) :
    findProduct (p :: rest) x = if p.oid = x then some p else findProduct rest x := by
  by_cases h : p.oid = x <;> simp [findProduct, List.find?_cons, h]

theorem findCart_cons (c : CartDoc) (rest : List CartDoc) (x : String) :
    findCart (c :: rest) x = if c.user_id = x then some c else findCart rest x := by
  by_cases h : c.user_id = x <;> simp [findCart, List.find?_cons, h]

theorem decStock_cons (p : ProductDoc) (rest : List ProductDoc) (pid : String) (q : Int) :
    decStock (p :: rest) pid q =
      if p.oid = pid then { p with stock := p.stock - q } :: rest
      else p :: decStock rest pid q := by
  by_cases h : p.oid = pid <;> simp [decStock, h]

theorem findProduct_decStock (ps : List ProductDoc) (pid x : String) (q : Int) :
    findProduct (decStock ps pid q) x =
      if x = pid then (findProduct ps pid).map (fun p => { p with stock := p.stock - q })
      else findProduct ps x := by
  induction ps with
  | nil => by_cases h : x = pid <;> simp [findProduct, decStock, h]
  | cons p rest ih =>
    rw [decStock_cons]
    by_cases hp : p.oid = pid
    · rw [if_pos hp]
      by_cases hx : x = pid
      · subst hx
        simp [findProduct_cons, hp]
      · have hpx : ¬ p.oid = x := fun h => hx (hp ▸ h.symm ▸ rfl)
        simp [findProduct_cons, hpx, hx]
    · rw [if_neg hp]
      by_cases hpx : p.oid = x
      · have hx : ¬ x = pid := fun h => hp (h ▸ hpx)
        simp [findProduct_cons, hpx, hx]
      · simp [findProduct_cons, hpx, ih, hp]

theorem checkoutLoop_cons (ps : List ProductDoc) (item : CartItem) (rest : List CartItem) :
    checkoutLoop ps (item :: rest) =
      match parseOId item.productId with
      | none => .fail .uncaughtInvalidId ps
      | some pid =>
        match findProduct ps pid with
        | none => checkoutLoop ps rest
        | some p =>
          if p.stock < item.quantity then .fail (.insufficientStock p.name) ps
          else
            match checkoutLoop (decStock ps pid item.quantity) rest with
            | .ok lines tot ps2 =>
              .ok (⟨item.productId, item.quantity⟩ :: lines) (p.price * item.quantity + tot) ps2
            | .fail e ps2 => .fail e ps2 := rfl

theorem lineQty_cons (x : String) (item : CartItem) (rest : List CartItem) :
    lineQty x (item :: rest) =
      (if parseOId item.productId = some x then item.quantity else 0) + lineQty x rest := by
  by_cases h : parseOId item.productId = some x <;>
    simp [lineQty, List.filter_cons, h]

theorem cartTotal_nil (ps : List ProductDoc) : cartTotal ps [] = 0 := rfl

theorem cartTotal_cons (ps : List ProductDoc) (item : CartItem) (rest : List CartItem) :
    cartTotal ps (item :: rest) =
      (match (parseOId item.productId).bind (findProduct ps) with
       | none => 0
       | some p => p.price * item.quantity) + cartTotal ps rest := by
  simp [cartTotal]

theorem cartTotal_decStock (ps : List ProductDoc) (pid : String) (q : Int)
    (items : List CartItem) :
    cartTotal (decStock ps pid q) items = cartTotal ps items := by
  have hpt : ∀ item : CartItem,
      (match (parseOId item.productId).bind (findProduct (decStock ps pid q)) with
       | none => (0 : Int)
       | some p => p.price * item.quantity) =
      (match (parseOId item.productId).bind (findProduct ps) with
       | none => (0 : Int)
       | some p => p.price * item.quantity) := by
    intro item
    cases hpar : parseOId item.productId with
    | none => simp
    | some y =>
      simp only [Option.some_bind]
      rw [findProduct_decStock]
      by_cases hy : y = pid
      · subst hy
        cases findProduct ps y <;> simp
      · simp [hy]
  simp only [cartTotal]
  congr 1
  exact List.map_congr_left (fun item _ => hpt item)

theorem checkoutLoop_ok_stock (ps : List ProductDoc) (items : List CartItem)
    (lines : List OrderLine) (tot : Int) (ps' : List ProductDoc)
    (h : checkoutLoop ps items = .ok lines tot ps') (x : String) :
    findProduct ps' x =
      (findProduct ps x).map (fun p => { p with stock := p.stock - lineQty x items }) := by
  induction items generalizing ps lines tot with
  | nil =>
    simp only [checkoutLoop, LoopResult.ok.injEq] at h
    obtain ⟨-, -, rfl⟩ := h
    cases hf : findProduct ps x <;> simp [lineQty]
  | cons item rest ih =>
    rw [checkoutLoop_cons] at h
    split at h
    · exact absurd h (by simp)
    next pid hparse =>
      split at h
      next hfind =>
        have hrec := ih _ _ _ h
        rw [hrec, lineQty_cons, hparse]
        by_cases hx : pid = x
        · subst hx; rw [hfind]; simp
        · simp [hx]
      next p hfind =>
        split at h
        · exact absurd h (by simp)
        next hs =>
          split at h
          next l2 t2 ps2 hrec =>
            simp only [LoopResult.ok.injEq] at h
            obtain ⟨-, -, rfl⟩ := h
            have hih := ih _ _ _ hrec
            rw [hih, findProduct_decStock, lineQty_cons, hparse]
            by_cases hx : x = pid
            · subst hx
              rw [if_pos rfl, hfind, if_pos rfl]
              simp [sub_sub]
            · rw [if_neg hx, if_neg (fun h => hx (Option.some_injective _ h).symm)]
              simp
          next e ps2 hrec => exact absurd h (by simp)

theorem checkoutLoop_ok_total (ps : List ProductDoc) (items : List CartItem)
    (lines : List OrderLine) (tot : Int) (ps' : List ProductDoc)
    (h : checkoutLoop ps items = .ok lines tot ps') :
    tot = cartTotal ps items := by
  induction items generalizing ps lines tot with
  | nil =>
    simp only [checkoutLoop, LoopResult.ok.injEq] at h
    obtain ⟨-, htot, -⟩ := h
    simp [cartTotal, ← htot]
  | cons item rest ih =>
    rw [checkoutLoop_cons] at h
    split at h
    · exact absurd h (by simp)
    next pid hparse =>
      split at h
      next hfind =>
        have hrec := ih _ _ _ h
        rw [cartTotal_cons, hparse]
        simp [hfind, hrec]
      next p hfind =>
        split at h
        · exact absurd h (by simp)
        next hs =>
          split at h
          next l2 t2 ps2 hrec =>
            simp only [LoopResult.ok.injEq] at h
            obtain ⟨-, htot, rfl⟩ := h
            have ht2 := ih _ _ _ hrec
            rw [cartTotal_decStock] at ht2
            rw [cartTotal_cons, hparse]
            simp [hfind, ← htot, ht2]
          next e ps2 hrec => exact absurd h (by simp)

theorem checkoutLoop_ok_parse (ps : List ProductDoc) (items : List CartItem)
    (lines : List OrderLine) (tot : Int) (ps' : List ProductDoc)
    (h : checkoutLoop ps items = .ok lines tot ps') :
    ∀ item ∈ items, (parseOId item.productId).isSome := by
  induction items generalizing ps lines tot with
  | nil => simp
  | cons item rest ih =>
    rw [checkoutLoop_cons] at h
    split at h
    · exact absurd h (by simp)
    next pid hparse =>
      split at h
      next hfind =>
        intro i hi
        rcases List.mem_cons.mp hi with rfl | hi
        · simp [hparse]
        · exact ih _ _ _ h i hi
      next p hfind =>
        split at h
        · exact absurd h (by simp)
        next hs =>
          split at h
          next l2 t2 ps2 hrec =>
            simp only [LoopResult.ok.injEq] at h
            obtain ⟨-, -, rfl⟩ := h
            intro i hi
            rcases List.mem_cons.mp hi with rfl | hi
            · simp [hparse]
            · exact ih _ _ _ hrec i hi
          next e ps2 hrec => exact absurd h (by simp)

theorem checkoutLoop_ok_bound (ps : List ProductDoc) (items : List CartItem)
    (lines : List OrderLine) (tot : Int) (ps' : List ProductDoc)
    (hnd : (items.map (fun i => parseOId i.productId)).Nodup)
    (h : checkoutLoop ps items = .ok lines tot ps') :
    ∀ item ∈ items, ∀ pid p, parseOId item.productId = some pid →
      findProduct ps pid = some p → item.quantity ≤ p.stock := by
  induction items generalizing ps lines tot with
  | nil => simp
  | cons item rest ih =>
    rw [List.map_cons, List.nodup_cons] at hnd
    obtain ⟨hnotin, hnd⟩ := hnd
    rw [checkoutLoop_cons] at h
    split at h
    · exact absurd h (by simp)
    next pid0 hparse =>
      split at h
      next hfind =>
        intro i hi pid p hpar hfp
        rcases List.mem_cons.mp hi with rfl | hi
        · rw [hparse] at hpar
          obtain rfl : pid0 = pid := Option.some_injective _ hpar
          rw [hfind] at hfp
          exact absurd hfp (by simp)
        · exact ih _ _ _ hnd h i hi pid p hpar hfp
      next p0 hfind =>
        split at h
        · exact absurd h (by simp)
        next hs =>
          split at h
          next l2 t2 ps2 hrec =>
            simp only [LoopResult.ok.injEq] at h
            obtain ⟨-, -, rfl⟩ := h
            intro i hi pid p hpar hfp
            rcases List.mem_cons.mp hi with rfl | hi
            · rw [hparse] at hpar
              obtain rfl : pid0 = pid := Option.some_injective _ hpar
              rw [hfind] at hfp
              obtain rfl : p0 = p := Option.some_injective _ hfp
              exact le_of_not_lt hs
            · have hne : pid ≠ pid0 := by
                intro hEq
                subst hEq
                rw [hparse] at hnotin
                exact hnotin (List.mem_map.mpr ⟨i, hi, hpar⟩)
              have hfp' : findProduct (decStock ps pid0 item.quantity) pid = some p := by
                rw [findProduct_decStock, if_neg hne, hfp]
              exact ih _ _ _ hnd hrec i hi pid p hpar hfp'
          next e ps2 hrec => exact absurd h (by simp)

theorem decStock_nonneg (ps : List ProductDoc) (pid : String) (q : Int)
    (hall : ∀ p ∈ ps, 0 ≤ p.stock)
    (hq : ∀ p, findProduct ps pid = some p → q ≤ p.stock) :
    ∀ p ∈ decStock ps pid q, 0 ≤ p.stock := by
  induction ps with
  | nil => simp [decStock]
  | cons p rest ih =>
    rw [decStock_cons]
    by_cases hp : p.oid = pid
    · rw [if_pos hp]
      intro r hr
      rcases List.mem_cons.mp hr with rfl | hr
      · have hle := hq p (by rw [findProduct_cons, if_pos hp])
        show 0 ≤ p.stock - q
        omega
      · exact hall r (List.mem_cons_of_mem _ hr)
    · rw [if_neg hp]
      intro r hr
      rcases List.mem_cons.mp hr with rfl | hr
      · exact hall r (by simp)
      · refine ih (fun x hx => hall x (List.mem_cons_of_mem _ hx)) ?_ r hr
        intro x hx
        apply hq
        rw [findProduct_cons, if_neg hp]
        exact hx

theorem checkoutLoop_ok_nonneg (ps : List ProductDoc) (items : List CartItem)
    (lines : List OrderLine) (tot : Int) (ps' : List ProductDoc)
    (hall : ∀ p ∈ ps, 0 ≤ p.stock)
    (h : checkoutLoop ps items = .ok lines tot ps') :
    ∀ p ∈ ps', 0 ≤ p.stock := by
  induction items generalizing ps lines tot with
  | nil =>
    simp only [checkoutLoop, LoopResult.ok.injEq] at h
    obtain ⟨-, -, rfl⟩ := h
    exact hall
  | cons item rest ih =>
    rw [checkoutLoop_cons] at h
    split at h
    · exact absurd h (by simp)
    next pid hparse =>
      split at h
      next hfind => exact ih _ _ _ hall h
      next p hfind =>
        split at h
        · exact absurd h (by simp)
        next hs =>
          split at h
          next l2 t2 ps2 hrec =>
            have hall' : ∀ r ∈ decStock ps pid item.quantity, 0 ≤ r.stock := by
              apply decStock_nonneg _ _ _ hall
              intro r hr
              rw [hfind] at hr
              obtain rfl : p = r := Option.some_injective _ hr
              exact le_of_not_lt hs
            simp only [LoopResult.ok.injEq] at h
            obtain ⟨-, -, rfl⟩ := h
            exact ih _ _ _ hall' hrec
          next e ps2 hrec => exact absurd h (by simp)

theorem applyDecs_cons (ps : List ProductDoc) (item : CartItem) (rest : List CartItem) :
    applyDecs ps (item :: rest) =
      match parseOId item.productId with
      | none => ps
      | some pid =>
        match findProduct ps pid with
        | none => applyDecs ps rest
        | some _ => applyDecs (decStock ps pid item.quantity) rest := rfl

theorem checkoutLoop_fail_split (ps : List ProductDoc) (items : List CartItem)
    (e : ApiError) (ps' : List ProductDoc)
    (h : checkoutLoop ps items = .fail e ps') :
    ∃ pre item post, items = pre ++ item :: post ∧ ps' = applyDecs ps pre ∧
      ((parseOId item.productId = none ∧ e = .uncaughtInvalidId) ∨
       (∃ pid p, parseOId item.productId = some pid ∧ findProduct ps' pid = some p ∧
          p.stock < item.quantity ∧ e = .insufficientStock p.name)) := by
  induction items generalizing ps with
  | nil => simp [checkoutLoop] at h
  | cons item rest ih =>
    rw [checkoutLoop_cons] at h
    split at h
    next hparse =>
      simp only [LoopResult.fail.injEq] at h
      obtain ⟨rfl, rfl⟩ := h
      exact ⟨[], item, rest, rfl, rfl, Or.inl ⟨hparse, rfl⟩⟩
    next pid hparse =>
      split at h
      next hfind =>
        obtain ⟨pre, it, post, heq, hps, hcase⟩ := ih _ h
        refine ⟨item :: pre, it, post, by rw [heq, List.cons_append], ?_, hcase⟩
        rw [hps, applyDecs_cons]
        simp [hparse, hfind]
      next p hfind =>
        split at h
        next hs =>
          simp only [LoopResult.fail.injEq] at h
          obtain ⟨rfl, rfl⟩ := h
          exact ⟨[], item, rest, rfl, rfl, Or.inr ⟨pid, p, hparse, hfind, hs, rfl⟩⟩
        next hs =>
          split at h
          next l2 t2 ps2 hrec => exact absurd h (by simp)
          next e2 ps2 hrec =>
            simp only [LoopResult.fail.injEq] at h
            obtain ⟨rfl, rfl⟩ := h
            obtain ⟨pre, it, post, heq, hps, hcase⟩ := ih _ hrec
            refine ⟨item :: pre, it, post, by rw [heq, List.cons_append], ?_, hcase⟩
            rw [hps, applyDecs_cons]
            simp [hparse, hfind]

theorem checkoutLoop_append_ok (ps : List ProductDoc) (xs ys : List CartItem)
    (lines : List OrderLine) (tot : Int) (ps' : List ProductDoc)
    (h : checkoutLoop ps xs = .ok lines tot ps') :
    checkoutLoop ps (xs ++ ys) =
      match checkoutLoop ps' ys with
      | .ok l2 t2 ps2 => .ok (lines ++ l2) (tot + t2) ps2
      | .fail e ps2 => .fail e ps2 := by
  induction xs generalizing ps lines tot with
  | nil =>
    simp only [checkoutLoop, LoopResult.ok.injEq] at h
    obtain ⟨rfl, rfl, rfl⟩ := h
    simp only [List.nil_append]
    cases checkoutLoop ps ys <;> simp
  | cons x xs ih =>
    rw [checkoutLoop_cons] at h
    rw [List.cons_append, checkoutLoop_cons]
    split at h
    next hparse =>
      exact absurd h (by simp)
    next pid hparse =>
      split at h
      next hfind => exact ih _ _ _ h
      next p hfind =>
        split at h
        next hs => exact absurd h (by simp)
        next hs =>
          rw [if_neg hs]
          split at h
          next l2 t2 ps2 hrec =>
            simp only [LoopResult.ok.injEq] at h
            obtain ⟨rfl, rfl, rfl⟩ := h
            rw [ih _ _ _ hrec]
            cases checkoutLoop ps2 ys <;> simp [add_assoc]
          next e2 ps2 hrec => exact absurd h (by simp)

theorem enrichItems_cons (ps : List ProductDoc) (item : CartItem) (rest : List CartItem) :
    enrichItems ps (item :: rest) =
      match parseOId item.productId with
      | none => .error .uncaughtInvalidId
      | some pid =>
        match findProduct ps pid with
        | none => enrichItems ps rest
        | some p =>
          match enrichItems ps rest with
          | .error e => .error e
          | .ok (views, tot) =>
            .ok (⟨p.oid, p.name, item.quantity, p.price, p.price * item.quantity⟩ :: views,
                 p.price * item.quantity + tot) := rfl

theorem enrichItems_ok (ps : List ProductDoc) (items : List CartItem)
    (views : List CartLineView) (tot : Int)
    (h : enrichItems ps items = .ok (views, tot)) :
    views = items.filterMap (enrichLine ps) ∧ tot = cartTotal ps items := by
  induction items generalizing views tot with
  | nil =>
    simp only [enrichItems, Except.ok.injEq, Prod.mk.injEq] at h
    obtain ⟨rfl, rfl⟩ := h
    exact ⟨rfl, rfl⟩
  | cons item rest ih =>
    rw [enrichItems_cons] at h
    split at h
    next hparse => exact absurd h (by simp)
    next pid hparse =>
      split at h
      next hfind =>
        obtain ⟨hv, ht⟩ := ih _ _ h
        constructor
        · rw [hv, List.filterMap_cons]
          simp [enrichLine, hparse, hfind]
        · rw [ht, cartTotal_cons, hparse]
          simp [hfind]
      next p hfind =>
        split at h
        next e2 hrec => exact absurd h (by simp)
        next vs2 t2 hrec =>
          simp only [Except.ok.injEq, Prod.mk.injEq] at h
          obtain ⟨rfl, rfl⟩ := h
          obtain ⟨hv, ht⟩ := ih _ _ hrec
          constructor
          · rw [hv, List.filterMap_cons]
            simp [enrichLine, hparse, hfind]
          · rw [ht, cartTotal_cons, hparse]
            simp [hfind]

theorem enrichItems_isOk (ps : List ProductDoc) (items : List CartItem)
    (hp : ∀ i ∈ items, (parseOId i.productId).isSome) :
    ∃ views tot, enrichItems ps items = .ok (views, tot) := by
  induction items with
  | nil => exact ⟨[], 0, rfl⟩
  | cons item rest ih =>
    obtain ⟨views, tot, hrec⟩ := ih (fun i hi => hp i (List.mem_cons_of_mem _ hi))
    have hsome := hp item (List.mem_cons_self _ _)
    cases hpar : parseOId item.productId with
    | none => rw [hpar] at hsome; simp at hsome
    | some pid =>
      cases hfind : findProduct ps pid with
      | none =>
        refine ⟨views, tot, ?_⟩
        rw [enrichItems_cons]
        simp [hpar, hfind, hrec]
      | some p =>
        refine ⟨⟨p.oid, p.name, item.quantity, p.price, p.price * item.quantity⟩ :: views,
                p.price * item.quantity + tot, ?_⟩
        rw [enrichItems_cons]
        simp [hpar, hfind, hrec]

theorem enrichItems_bad (ps : List ProductDoc) (items : List CartItem)
    (hbad : ∃ i ∈ items, parseOId i.productId = none) :
    enrichItems ps items = .error .uncaughtInvalidId := by
  induction items with
  | nil => simp at hbad
  | cons item rest ih =>
    obtain ⟨i, hi, hpar⟩ := hbad
    rcases List.mem_cons.mp hi with rfl | hi
    · rw [enrichItems_cons]
      simp [hpar]
    · have hrec := ih ⟨i, hi, hpar⟩
      cases hpar2 : parseOId item.productId with
      | none => rw [enrichItems_cons]; simp [hpar2]
      | some pid =>
        cases hfind : findProduct ps pid with
        | none => rw [enrichItems_cons]; simp [hpar2, hfind, hrec]
        | some p => rw [enrichItems_cons]; simp [hpar2, hfind, hrec]

/-! ### Inversion lemmas for the endpoints -/

theorem checkout_ok_inv (db : DB) (user_id : String) (resp : CheckoutResp) (db' : DB)
    (h : checkout db user_id = (.ok resp, db')) :
    ∃ uid cart lines,
      parseOId user_id = some uid ∧
      findCart db.carts uid = some cart ∧
      cart.items ≠ [] ∧
      checkoutLoop db.products cart.items = .ok lines resp.total db'.products ∧
      resp.order_id = db.orders.length ∧
      db'.orders = db.orders ++ [⟨uid, lines, resp.total⟩] ∧
      db'.carts = eraseCart db.carts uid ∧
      db'.users = db.users := by
  unfold checkout at h
  split at h
  · exact absurd h (by simp)
  next uid hparse =>
    split at h
    · exact absurd h (by simp)
    next cart hfind =>
      split at h
      next hemp => exact absurd h (by simp)
      next hemp =>
        split at h
        next e ps hloop => exact absurd h (by simp)
        next lines tot ps hloop =>
          simp only [Prod.mk.injEq, Except.ok.injEq] at h
          obtain ⟨hresp, rfl⟩ := h
          obtain rfl : CheckoutResp.mk db.orders.length tot = resp := hresp
          refine ⟨uid, cart, lines, hparse, hfind, ?_, hloop, rfl, rfl, rfl, rfl⟩
          intro hnil
          rw [hnil] at hemp
          simp at hemp

theorem checkout_fail_inv (db : DB) (user_id uid : String) (cart : CartDoc)
    (e : ApiError) (db' : DB)
    (hparse : parseOId user_id = some uid)
    (hfind : findCart db.carts uid = some cart)
    (hne : cart.items ≠ [])
    (h : checkout db user_id = (.error e, db')) :
    checkoutLoop db.products cart.items = .fail e db'.products ∧
    db'.orders = db.orders ∧ db'.carts = db.carts ∧ db'.users = db.users := by
  unfold checkout at h
  split at h
  next hp => rw [hparse] at hp; exact absurd hp (by simp)
  next uid' hp =>
    rw [hparse] at hp
    obtain rfl : uid = uid' := Option.some_injective _ hp
    split at h
    next hf => rw [hfind] at hf; exact absurd hf (by simp)
    next cart' hf =>
      rw [hfind] at hf
      obtain rfl : cart = cart' := Option.some_injective _ hf
      split at h
      next hemp => exact absurd (by simpa using hemp) hne
      next hemp =>
        split at h
        next e2 ps hloop =>
          simp only [Prod.mk.injEq, Except.error.injEq] at h
          obtain ⟨rfl, rfl⟩ := h
          exact ⟨hloop, rfl, rfl, rfl⟩
        next lines tot ps hloop => exact absurd h (by simp)

theorem checkout_empty (db : DB) (user_id uid : String)
    (hparse : parseOId user_id = some uid)
    (hempty : findCart db.carts uid = none ∨
      ∃ cart, findCart db.carts uid = some cart ∧ cart.items = []) :
    checkout db user_id = (.error .emptyCart, db) := by
  unfold checkout
  rcases hempty with hnone | ⟨cart, hsome, hnil⟩
  · simp [hparse, hnone]
  · simp [hparse, hsome, hnil]

/-! ### Lemmas about cart deletion and mutation -/

theorem eraseCart_cons (c : CartDoc) (rest : List CartDoc) (uid : String) :
    eraseCart (c :: rest) uid =
      if c.user_id = uid then rest else c :: eraseCart rest uid := by
  by_cases h : c.user_id = uid <;> simp [eraseCart, h]

theorem findCart_eraseCart (carts : List CartDoc) (uid : String)
    (hu : uniqueCartUsers carts) :
    findCart (eraseCart carts uid) uid = none := by
  induction carts with
  | nil => simp [eraseCart, findCart]
  | cons c rest ih =>
    rw [uniqueCartUsers, List.map_cons, List.nodup_cons] at hu
    obtain ⟨hnotin, hu⟩ := hu
    rw [eraseCart_cons]
    by_cases hc : c.user_id = uid
    · rw [if_pos hc]
      subst hc
      rw [findCart, List.find?_eq_none]
      intro x hx
      simp only [beq_iff_eq]
      intro hxe
      exact hnotin (hxe ▸ List.mem_map_of_mem _ hx)
    · rw [if_neg hc, findCart_cons, if_neg hc]
      exact ih hu

theorem findCart_eq_of_mem (carts : List CartDoc) (uid : String)
    (hu : uniqueCartUsers carts)
    (c : CartDoc) (hc : c ∈ carts) (hcu : c.user_id = uid) :
    findCart carts uid = some c := by
  induction carts with
  | nil => simp at hc
  | cons c0 rest ih =>
    rw [uniqueCartUsers, List.map_cons, List.nodup_cons] at hu
    obtain ⟨hnotin, hu⟩ := hu
    rcases List.mem_cons.mp hc with rfl | hc
    · rw [findCart_cons, if_pos hcu]
    · by_cases h0 : c0.user_id = uid
      · exact absurd (h0 ▸ hcu ▸ List.mem_map_of_mem (·.user_id) hc) hnotin
      · rw [findCart_cons, if_neg h0]
        exact ih hu hc

theorem findCart_pushItem (carts : List CartDoc) (uid : String) (item : CartItem) :
    findCart (pushItem carts uid item) uid =
      match findCart carts uid with
      | none => some ⟨uid, [item]⟩
      | some c => some { c with items := c.items ++ [item] } := by
  induction carts with
  | nil => simp [pushItem, findCart]
  | cons c rest ih =>
    by_cases hc : c.user_id = uid
    · simp [pushItem, hc, findCart_cons]
    · simp [pushItem, hc, findCart_cons, ih]

theorem find?_incItemQty (items : List CartItem) (pid : String) (q : Int) :
    (incItemQty items pid q).find? (fun i => i.productId == pid) =
      (items.find? (fun i => i.productId == pid)).map
        (fun i => { i with quantity := i.quantity + q }) := by
  induction items with
  | nil => simp [incItemQty]
  | cons i rest ih =>
    by_cases hi : i.productId = pid
    · simp [incItemQty, hi, List.find?_cons]
    · simp [incItemQty, hi, List.find?_cons, ih]

theorem combinedFind_none (carts : List CartDoc) (uid pid : String)
    (hno : ∀ c ∈ carts, c.user_id = uid → ∀ i ∈ c.items, i.productId ≠ pid) :
    carts.find?
      (fun c => c.user_id == uid && c.items.any (fun i => i.productId == pid)) = none := by
  rw [List.find?_eq_none]
  intro c hc
  simp only [Bool.and_eq_true, beq_iff_eq, List.any_eq_true, not_and]
  rintro hcu ⟨i, hi, hip⟩
  exact hno c hc hcu i hi hip

theorem combinedFind_eq (carts : List CartDoc) (uid pid : String) (c : CartDoc)
    (hf : findCart carts uid = some c)
    (hany : c.items.any (fun i => i.productId == pid) = true) :
    carts.find?
      (fun c => c.user_id == uid && c.items.any (fun i => i.productId == pid)) = some c := by
  induction carts with
  | nil => simp [findCart] at hf
  | cons c0 rest ih =>
    by_cases hc : c0.user_id = uid
    · rw [findCart_cons, if_pos hc] at hf
      obtain rfl : c0 = c := Option.some_injective _ hf
      rw [List.find?_cons_of_pos]
      simp [hc, hany]
    · rw [findCart_cons, if_neg hc] at hf
      rw [List.find?_cons_of_neg]
      · exact ih hf
      · simp [hc]

theorem findCart_incFirstMatching (carts : List CartDoc) (uid pid : String) (q : Int)
    (c : CartDoc)
    (hf : findCart carts uid = some c)
    (hany : c.items.any (fun i => i.productId == pid) = true) :
    findCart (incFirstMatching carts uid pid q) uid =
      some { c with items := incItemQty c.items pid q } := by
  induction carts with
  | nil => simp [findCart] at hf
  | cons c0 rest ih =>
    by_cases hc : c0.user_id = uid
    · rw [findCart_cons, if_pos hc] at hf
      obtain rfl : c0 = c := Option.some_injective _ hf
      simp only [incFirstMatching]
      rw [if_pos (by simp [hc, hany])]
      rw [findCart_cons, if_pos hc]
    · rw [findCart_cons, if_neg hc] at hf
      simp only [incFirstMatching]
      rw [if_neg (by simp [hc]), findCart_cons, if_neg hc]
      exact ih hf

theorem find?_append_none {α : Type} (p : α → Bool) (l1 l2 : List α)
    (h : l1.find? p = none) :
    (l1 ++ l2).find? p = l2.find? p := by
  induction l1 with
  | nil => simp
  | cons a l1 ih =>
    rw [List.find?_cons] at h
    rw [List.cons_append, List.find?_cons]
    cases hp : p a with
    | true => rw [hp] at h; simp at h
    | false => rw [hp] at h; simp only; exact ih h

theorem add_to_cart_inc_step (db : DB) (user_id uid pid : String) (q s : Int)
    (hparse : parseOId user_id = some uid)
    (h : storedQty db uid pid = some s) :
    storedQty (add_to_cart db user_id ⟨pid, q⟩).2 uid pid = some (s + q) := by
  unfold storedQty at h
  cases hf : findCart db.carts uid with
  | none => rw [hf] at h; simp at h
  | some c =>
    rw [hf] at h
    simp only [Option.some_bind] at h
    obtain ⟨i, hfind, hq⟩ := Option.map_eq_some'.mp h
    have hmem := List.mem_of_find?_eq_some hfind
    have hpred := List.find?_some hfind
    have hany : c.items.any (fun i => i.productId == pid) = true :=
      List.any_eq_true.mpr ⟨i, hmem, hpred⟩
    have hcf := combinedFind_eq db.carts uid pid c hf hany
    unfold add_to_cart
    simp only [hparse, hcf]
    unfold storedQty
    rw [show ((.ok "Item added to cart",
        { db with carts := incFirstMatching db.carts uid pid q }) :
          Except ApiError String × DB).2.carts = incFirstMatching db.carts uid pid q from rfl]
    rw [findCart_incFirstMatching db.carts uid pid q c hf hany]
    simp only [Option.some_bind]
    rw [find?_incItemQty, hfind]
    simp [hq]

theorem isEmpty_false_of_ne_nil {α : Type} {l : List α} (h : l ≠ []) :
    l.isEmpty = false := by
  cases l with
  | nil => exact absurd rfl h
  | cons a l => rfl

theorem lineQty_nodup (items : List CartItem) (item : CartItem) (pid : String)
    (hnd : (items.map (fun i => parseOId i.productId)).Nodup)
    (hm : item ∈ items) (hp : parseOId item.productId = some pid) :
    lineQty pid items = item.quantity := by
  induction items with
  | nil => simp at hm
  | cons a rest ih =>
    rw [List.map_cons, List.nodup_cons] at hnd
    obtain ⟨hnotin, hnd⟩ := hnd
    rcases List.mem_cons.mp hm with rfl | hm
    · rw [lineQty_cons, if_pos hp]
      have hzero : lineQty pid rest = 0 := by
        unfold lineQty
        have : rest.filter (fun i => parseOId i.productId == some pid) = [] := by
          rw [List.filter_eq_nil_iff]
          intro i hi
          simp only [beq_iff_eq]
          intro hEq
          exact hnotin (hp ▸ hEq ▸ List.mem_map_of_mem _ hi)
        rw [this]
        rfl
      rw [hzero, add_zero]
    · have hne : ¬ parseOId a.productId = some pid := by
        intro hEq
        exact hnotin (hEq ▸ hp ▸ List.mem_map_of_mem _ hm)
      rw [lineQty_cons, if_neg hne, ih hnd hm, zero_add]

theorem checkoutLoop_all_missing (ps : List ProductDoc) (items : List CartItem)
    (hdangle : ∀ i ∈ items, ∃ pid, parseOId i.productId = some pid ∧
      findProduct ps pid = none) :
    checkoutLoop ps items = .ok [] 0 ps := by
  induction items with
  | nil => rfl
  | cons item rest ih =>
    obtain ⟨pid, hpar, hfindp⟩ := hdangle item (List.mem_cons_self _ _)
    rw [checkoutLoop_cons]
    simp [hpar, hfindp, ih (fun i hi => hdangle i (List.mem_cons_of_mem _ hi))]

theorem cartItemsOf_eq_of_mem (db : DB) (uid : String)
    (hu : uniqueCartUsers db.carts)
    (c : CartDoc) (hc : c ∈ db.carts) (hcu : c.user_id = uid) :
    cartItemsOf db uid = c.items := by
  unfold cartItemsOf
  rw [findCart_eq_of_mem db.carts uid hu c hc hcu]

theorem add_to_cart_new_line (db : DB) (user_id uid : String) (item : CartItem)
    (hparse : parseOId user_id = some uid)
    (hu : uniqueCartUsers db.carts)
    (hno : ∀ i ∈ cartItemsOf db uid, i.productId ≠ item.productId) :
    cartItemsOf (add_to_cart db user_id item).2 uid = cartItemsOf db uid ++ [item] := by
  have hno' : ∀ c ∈ db.carts, c.user_id = uid →
      ∀ i ∈ c.items, i.productId ≠ item.productId := by
    intro c hc hcu i hi
    apply hno
    rw [cartItemsOf_eq_of_mem db uid hu c hc hcu]
    exact hi
  have hcf := combinedFind_none db.carts uid item.productId hno'
  unfold add_to_cart
  simp only [hparse, hcf]
  unfold cartItemsOf
  rw [show ((.ok "Item added to cart",
      { db with carts := pushItem db.carts uid item }) :
        Except ApiError String × DB).2.carts = pushItem db.carts uid item from rfl]
  rw [findCart_pushItem]
  cases hf : findCart db.carts uid <;> simp [hf]

theorem add_to_cart_new_qty (db : DB) (user_id uid pid : String) (q : Int)
    (hparse : parseOId user_id = some uid)
    (hu : uniqueCartUsers db.carts)
    (hno : ∀ i ∈ cartItemsOf db uid, i.productId ≠ pid) :
    storedQty (add_to_cart db user_id ⟨pid, q⟩).2 uid pid = some q := by
  have hno' : ∀ c ∈ db.carts, c.user_id = uid → ∀ i ∈ c.items, i.productId ≠ pid := by
    intro c hc hcu i hi
    apply hno
    rw [cartItemsOf_eq_of_mem db uid hu c hc hcu]
    exact hi
  have hcf := combinedFind_none db.carts uid pid hno'
  unfold add_to_cart
  simp only [hparse, hcf]
  unfold storedQty
  rw [show ((.ok "Item added to cart",
      { db with carts := pushItem db.carts uid (⟨pid, q⟩ : CartItem) }) :
        Except ApiError String × DB).2.carts = pushItem db.carts uid ⟨pid, q⟩ from rfl]
  rw [findCart_pushItem]
  cases hf : findCart db.carts uid with
  | none => simp
  | some c =>
    simp only [Option.some_bind]
    have hnone : c.items.find? (fun i => i.productId == pid) = none := by
      rw [List.find?_eq_none]
      intro i hi
      simp only [beq_iff_eq]
      apply hno
      rw [cartItemsOf, hf]
      exact hi
    rw [find?_append_none _ _ _ hnone]
    simp

theorem addSeq_inc (db : DB) (user_id uid pid : String) (qs : List Int) (s : Int)
    (hparse : parseOId user_id = some uid)
    (h : storedQty db uid pid = some s) :
    storedQty (addSeq db user_id pid qs) uid pid = some (s + qs.sum) := by
  induction qs generalizing db s with
  | nil => simpa [addSeq] using h
  | cons q rest ih =>
    have hstep : addSeq db user_id pid (q :: rest) =
        addSeq (add_to_cart db user_id ⟨pid, q⟩).2 user_id pid rest := rfl
    rw [hstep, ih _ _ (add_to_cart_inc_step db user_id uid pid q s hparse h)]
    rw [List.sum_cons]
    ring_nf

/-! ### Claim theorems -/

/-- C3: for every user_id that parses as a valid identifier, if the user has no
cart document or the cart's items list is empty, checkout fails with the
EmptyCart error and leaves every collection (carts, products, orders — and
users) unchanged. -/
theorem checkout_emptyCart_no_mutation (db : DB) (user_id uid : String)
    (hparse : parseOId user_id = some uid)
    (hempty : findCart db.carts uid = none ∨
      ∃ cart, findCart db.carts uid = some cart ∧ cart.items = []) :
    checkout db user_id = (.error .emptyCart, db) :=
  checkout_empty db user_id uid hparse hempty

/-- Witness for C3 at a concrete state with no cart document. -/
theorem checkout_emptyCart_no_mutation_witness :
    checkout dbW3 uidW = (.error .emptyCart, dbW3) :=
  checkout_emptyCart_no_mutation dbW3 uidW uidW (by decide) (Or.inl (by decide))

/-- C7: starting from any state where every product's stock is non-negative, a
successful checkout leaves every product's stock non-negative: each decrement
is applied only after the stock read for that line is checked against the
line's quantity. -/
theorem checkout_preserves_stock_nonneg (db : DB) (user_id : String)
    (resp : CheckoutResp) (db' : DB)
    (hall : ∀ p ∈ db.products, 0 ≤ p.stock)
    (h : checkout db user_id = (.ok resp, db')) :
    ∀ p ∈ db'.products, 0 ≤ p.stock := by
  obtain ⟨uid, cart, lines, -, -, -, hloop, -, -, -, -⟩ :=
    checkout_ok_inv db user_id resp db' h
  exact checkoutLoop_ok_nonneg _ _ _ _ _ hall hloop

/-- Witness for C7: the concrete successful checkout on `dbW1`, evaluated at
each of the two products of the post-state. -/
theorem checkout_preserves_stock_nonneg_witness :
    0 ≤ (⟨pidW1, "P1", "d", 10, 3⟩ : ProductDoc).stock ∧ 0 ≤ prodW2.stock :=
  ⟨checkout_preserves_stock_nonneg dbW1 uidW ⟨0, 20⟩ dbW1'
      (by decide) (by decide) ⟨pidW1, "P1", "d", 10, 3⟩ (by decide),
   checkout_preserves_stock_nonneg dbW1 uidW ⟨0, 20⟩ dbW1'
      (by decide) (by decide) prodW2 (by decide)⟩

/-- C10: get_cart mutates no collection, and add_to_cart mutates only the
carts collection — products, orders and users are unchanged on every path. -/
theorem cart_endpoints_frame (db : DB) (user_id : String) (item : CartItem) :
    (get_cart db user_id).2 = db ∧
    (add_to_cart db user_id item).2.products = db.products ∧
    (add_to_cart db user_id item).2.orders = db.orders ∧
    (add_to_cart db user_id item).2.users = db.users := by
  refine ⟨?_, ?_, ?_, ?_⟩
  · unfold get_cart
    split
    · rfl
    · split
      · rfl
      · split
        · rfl
        · split <;> rfl
  all_goals
    unfold add_to_cart
    split
    · rfl
    · split <;> rfl

/-- C6 counterexample: add_to_cart with a well-formed user_id but a malformed
product_id does NOT fail — the item is accepted (and stored verbatim). -/
theorem add_to_cart_malformed_product_accepted :
    isValidObjectId "bad" = false ∧
    add_to_cart dbW3 uidW ⟨"bad", 1⟩ =
      (.ok "Item added to cart", ⟨[], [], [⟨uidW, [⟨"bad", 1⟩]⟩], []⟩) := by
  constructor
  · decide
  · decide

/-- C6 amended: add_to_cart fails with InvalidIdentifier (and mutates nothing)
exactly when the supplied user_id is malformed; the supplied product_id is
never validated — the call succeeds for every product_id string. -/
theorem add_to_cart_validation (db : DB) (user_id : String) (item : CartItem) :
    (parseOId user_id = none → add_to_cart db user_id item = (.error .invalidUserId, db)) ∧
    (∀ uid, parseOId user_id = some uid →
      (add_to_cart db user_id item).1 = .ok "Item added to cart") := by
  constructor
  · intro h
    unfold add_to_cart
    simp [h]
  · intro uid h
    unfold add_to_cart
    simp only [h]
    split <;> rfl

/-- Witness for C6's amended claim at concrete malformed and valid user ids. -/
theorem add_to_cart_validation_witness :
    add_to_cart dbW3 "xyz" ⟨"p", 1⟩ = (.error .invalidUserId, dbW3) ∧
    (add_to_cart dbW3 uidW ⟨"p", 1⟩).1 = .ok "Item added to cart" :=
  ⟨(add_to_cart_validation dbW3 "xyz" ⟨"p", 1⟩).1 (by decide),
   (add_to_cart_validation dbW3 uidW ⟨"p", 1⟩).2 uidW (by decide)⟩

/-- C4: for every valid user_id, get_cart returns the empty view when the cart
is absent or empty; otherwise the returned total is the sum of
price × quantity over the lines whose product exists, lines with missing
products are omitted, and the lines appear in the cart's stored order (the
result is a filterMap of the stored items). -/
theorem get_cart_spec (db : DB) (user_id uid : String)
    (hparse : parseOId user_id = some uid) :
    ((findCart db.carts uid = none ∨
        ∃ cart, findCart db.carts uid = some cart ∧ cart.items = []) →
      (get_cart db user_id).1 = .ok ⟨[], 0⟩) ∧
    (∀ v, (get_cart db user_id).1 = .ok v →
      v.total = cartTotal db.products (cartItemsOf db uid) ∧
      v.products = (cartItemsOf db uid).filterMap (enrichLine db.products)) := by
  constructor
  · rintro (hnone | ⟨cart, hsome, hnil⟩)
    · unfold get_cart
      simp [hparse, hnone]
    · unfold get_cart
      simp [hparse, hsome, hnil]
  · intro v hv
    unfold get_cart at hv
    simp only [hparse] at hv
    cases hf : findCart db.carts uid with
    | none =>
      simp only [hf] at hv
      simp only [Except.ok.injEq] at hv
      obtain rfl := hv
      simp [cartItemsOf, hf, cartTotal]
    | some cart =>
      simp only [hf] at hv
      by_cases hemp : cart.items.isEmpty
      · rw [if_pos hemp] at hv
        simp only [Except.ok.injEq] at hv
        obtain rfl := hv
        have hnil : cart.items = [] := by simpa using hemp
        simp [cartItemsOf, hf, hnil, cartTotal]
      · rw [if_neg hemp] at hv
        cases henr : enrichItems db.products cart.items with
        | error e => simp [henr] at hv
        | ok vt =>
          obtain ⟨views, tot⟩ := vt
          simp only [henr] at hv
          simp only [Except.ok.injEq] at hv
          obtain rfl := hv
          obtain ⟨hviews, htot⟩ := enrichItems_ok _ _ _ _ henr
          constructor
          · rw [cartItemsOf, hf]
            exact htot
          · rw [cartItemsOf, hf]
            exact hviews

/-- Witness for C4: the concrete cart of `dbW1` (one line, existing product)
and the absent cart of `dbW3`. -/
theorem get_cart_spec_witness :
    (get_cart dbW3 uidW).1 = .ok ⟨[], 0⟩ ∧
    (⟨[⟨pidW1, "P1", 2, 10, 20⟩], 20⟩ : CartView).total =
      cartTotal dbW1.products (cartItemsOf dbW1 uidW) ∧
    (⟨[⟨pidW1, "P1", 2, 10, 20⟩], 20⟩ : CartView).products =
      (cartItemsOf dbW1 uidW).filterMap (enrichLine dbW1.products) :=
  ⟨(get_cart_spec dbW3 uidW uidW (by decide)).1 (Or.inl (by decide)),
   (get_cart_spec dbW1 uidW uidW (by decide)).2 ⟨[⟨pidW1, "P1", 2, 10, 20⟩], 20⟩ (by decide)⟩

/-- C9: dangling-line skipping applies only to parseable ids — a cart line
whose stored productId does not parse makes get_cart raise the uncaught
identifier-parsing error, and checkout likewise once the preceding lines have
been processed (their stock decrements persisting), rather than skipping the
line or returning a client error. -/
theorem unparseable_line_uncaught (db : DB) (user_id uid : String) (cart : CartDoc)
    (hparse : parseOId user_id = some uid)
    (hfind : findCart db.carts uid = some cart) :
    ((∃ i ∈ cart.items, parseOId i.productId = none) →
      (get_cart db user_id).1 = .error .uncaughtInvalidId) ∧
    (∀ pre bad post lines tot ps',
      cart.items = pre ++ bad :: post →
      parseOId bad.productId = none →
      checkoutLoop db.products pre = .ok lines tot ps' →
      checkout db user_id = (.error .uncaughtInvalidId, { db with products := ps' })) := by
  constructor
  · rintro ⟨i, hi, hbad⟩
    have hne : cart.items ≠ [] := List.ne_nil_of_mem hi
    unfold get_cart
    simp only [hparse, hfind]
    rw [if_neg (by simp [isEmpty_false_of_ne_nil hne])]
    rw [enrichItems_bad db.products cart.items ⟨i, hi, hbad⟩]
  · intro pre bad post lines tot ps' hsplit hbad hpre
    have hfail : checkoutLoop db.products cart.items = .fail .uncaughtInvalidId ps' := by
      rw [hsplit, checkoutLoop_append_ok db.products pre (bad :: post) lines tot ps' hpre]
      rw [checkoutLoop_cons]
      simp [hbad]
    have hne : cart.items ≠ [] := by
      rw [hsplit]
      simp
    unfold checkout
    simp only [hparse, hfind]
    rw [if_neg (by simp [isEmpty_false_of_ne_nil hne])]
    rw [hfail]

/-- Witness for C9: the cart of `dbW5` stores the unparseable id "junk". -/
theorem unparseable_line_uncaught_witness :
    (get_cart dbW5 uidW).1 = .error .uncaughtInvalidId ∧
    checkout dbW5 uidW = (.error .uncaughtInvalidId, { dbW5 with products := [] }) := by
  have h := unparseable_line_uncaught dbW5 uidW uidW ⟨uidW, [⟨"junk", 2⟩]⟩
    (by decide) (by decide)
  exact ⟨h.1 ⟨⟨"junk", 2⟩, by decide, by decide⟩,
         h.2 [] ⟨"junk", 2⟩ [] [] 0 [] rfl (by decide) rfl⟩

/-- C8: a non-empty cart all of whose lines reference missing products does
not fail: checkout succeeds with total 0, inserts an order with an empty
products list, and deletes the cart. -/
theorem checkout_all_dangling (db : DB) (user_id uid : String) (cart : CartDoc)
    (hparse : parseOId user_id = some uid)
    (hfind : findCart db.carts uid = some cart)
    (hne : cart.items ≠ [])
    (hu : uniqueCartUsers db.carts)
    (hdangle : ∀ i ∈ cart.items, ∃ pid, parseOId i.productId = some pid ∧
        findProduct db.products pid = none) :
    checkout db user_id =
      (.ok ⟨db.orders.length, 0⟩,
       { db with orders := db.orders ++ [⟨uid, [], 0⟩], carts := eraseCart db.carts uid }) ∧
    findCart (eraseCart db.carts uid) uid = none := by
  have hloop := checkoutLoop_all_missing db.products cart.items hdangle
  constructor
  · unfold checkout
    simp only [hparse, hfind]
    rw [if_neg (by simp [isEmpty_false_of_ne_nil hne])]
    rw [hloop]
  · exact findCart_eraseCart db.carts uid hu

/-- Witness for C8: the cart of `dbW4` has one line whose product is missing. -/
theorem checkout_all_dangling_witness :
    checkout dbW4 uidW =
      (.ok ⟨0, 0⟩, { dbW4 with orders := [⟨uidW, [], 0⟩], carts := eraseCart dbW4.carts uidW }) ∧
    findCart (eraseCart dbW4.carts uidW) uidW = none := by
  have h := checkout_all_dangling dbW4 uidW uidW ⟨uidW, [⟨pidW1, 2⟩]⟩
    (by decide) (by decide) (by decide) (by unfold uniqueCartUsers; decide)
    (by
      intro i hi
      refine ⟨pidW1, ?_, by decide⟩
      have : i = (⟨pidW1, 2⟩ : CartItem) := by
        simpa [dbW4] using hi
      rw [this]
      decide)
  exact h

/-- C2: when checkout fails with InsufficientStock on some line, no order is
inserted and the cart is not deleted, but the products collection holds
exactly the decrements already applied to the earlier lines of that same
call — they are not rolled back. The failing line's product, read from that
partially-mutated state, has stock below the line's quantity. -/
theorem checkout_insufficientStock_persists (db : DB) (user_id uid : String) (cart : CartDoc)
    (nm : String) (db' : DB)
    (hparse : parseOId user_id = some uid)
    (hfind : findCart db.carts uid = some cart)
    (hne : cart.items ≠ [])
    (h : checkout db user_id = (.error (.insufficientStock nm), db')) :
    db'.orders = db.orders ∧ db'.carts = db.carts ∧ db'.users = db.users ∧
    ∃ pre item post pid p,
      cart.items = pre ++ item :: post ∧
      db'.products = applyDecs db.products pre ∧
      parseOId item.productId = some pid ∧
      findProduct db'.products pid = some p ∧
      p.stock < item.quantity ∧ nm = p.name := by
  obtain ⟨hloop, horders, hcarts, husers⟩ :=
    checkout_fail_inv db user_id uid cart _ db' hparse hfind hne h
  refine ⟨horders, hcarts, husers, ?_⟩
  obtain ⟨pre, item, post, heq, hps, hcase⟩ :=
    checkoutLoop_fail_split _ _ _ _ hloop
  rcases hcase with ⟨-, habs⟩ | ⟨pid, p, hpar, hfp, hlt, hnm⟩
  · exact absurd habs (by simp)
  · injection hnm with hnm
    exact ⟨pre, item, post, pid, p, heq, hps, hpar, hfp, hlt, hnm⟩

/-- Witness for C2: checking out `dbW2` decrements P1's stock on the first
line, then fails on the second line; the decrement persists. -/
theorem checkout_insufficientStock_persists_witness :
    (⟨[], [⟨pidW1, "P1", "d", 10, 3⟩, prodW2], dbW2.carts, []⟩ : DB).orders = dbW2.orders ∧
    (⟨[], [⟨pidW1, "P1", "d", 10, 3⟩, prodW2], dbW2.carts, []⟩ : DB).carts = dbW2.carts ∧
    (⟨[], [⟨pidW1, "P1", "d", 10, 3⟩, prodW2], dbW2.carts, []⟩ : DB).users = dbW2.users ∧
    ∃ pre item post pid p,
      (⟨uidW, [⟨pidW1, 2⟩, ⟨pidW2, 10⟩]⟩ : CartDoc).items = pre ++ item :: post ∧
      (⟨[], [⟨pidW1, "P1", "d", 10, 3⟩, prodW2], dbW2.carts, []⟩ : DB).products =
        applyDecs dbW2.products pre ∧
      parseOId item.productId = some pid ∧
      findProduct (⟨[], [⟨pidW1, "P1", "d", 10, 3⟩, prodW2], dbW2.carts, []⟩ : DB).products pid
        = some p ∧
      p.stock < item.quantity ∧ "P2" = p.name :=
  checkout_insufficientStock_persists dbW2 uidW uidW ⟨uidW, [⟨pidW1, 2⟩, ⟨pidW2, 10⟩]⟩ "P2"
    ⟨[], [⟨pidW1, "P1", "d", 10, 3⟩, prodW2], dbW2.carts, []⟩
    (by decide) (by decide) (by decide) (by decide)

/-- C5: for a valid user whose cart (the at-most-one cart document per user)
has no line for product_id, a single add_to_cart appends exactly one new line
{product_id, quantity} (creating the cart if absent); and any non-empty
sequence of add_to_cart calls for the same (user_id, product_id) leaves that
line's stored quantity equal to the sum of all quantities passed. -/
theorem add_to_cart_accumulates (db : DB) (user_id uid pid : String)
    (hparse : parseOId user_id = some uid)
    (hu : uniqueCartUsers db.carts)
    (hno : ∀ i ∈ cartItemsOf db uid, i.productId ≠ pid) :
    (∀ q : Int, cartItemsOf (add_to_cart db user_id ⟨pid, q⟩).2 uid =
        cartItemsOf db uid ++ [⟨pid, q⟩]) ∧
    (∀ q0 : Int, ∀ qs : List Int,
      storedQty (addSeq db user_id pid (q0 :: qs)) uid pid = some (q0 :: qs).sum) := by
  constructor
  · intro q
    exact add_to_cart_new_line db user_id uid ⟨pid, q⟩ hparse hu hno
  · intro q0 qs
    have hstep : addSeq db user_id pid (q0 :: qs) =
        addSeq (add_to_cart db user_id ⟨pid, q0⟩).2 user_id pid qs := rfl
    rw [hstep, addSeq_inc _ user_id uid pid qs q0 hparse
      (add_to_cart_new_qty db user_id uid pid q0 hparse hu hno)]
    rw [List.sum_cons]

/-- Witness for C5: adding to the empty store, then a sequence of three adds. -/
theorem add_to_cart_accumulates_witness :
    cartItemsOf (add_to_cart dbW3 uidW ⟨pidW1, 2⟩).2 uidW =
      cartItemsOf dbW3 uidW ++ [⟨pidW1, 2⟩] ∧
    storedQty (addSeq dbW3 uidW pidW1 [1, 2, 3]) uidW pidW1 =
      some ([1, 2, 3] : List Int).sum := by
  have h := add_to_cart_accumulates dbW3 uidW uidW pidW1 (by decide)
    (by unfold uniqueCartUsers; decide) (by decide)
  exact ⟨h.1 2, h.2 1 [2, 3]⟩

/-- C1: on a successful checkout for a user with a non-empty cart (distinct
parsed product ids per line, at most one cart per user): every line whose
product exists passed the stock check against the stock it was evaluated at
(the pre-state stock, since lines are distinct), each such product's stock is
decreased by exactly that line's quantity, exactly one order is inserted whose
total equals the total get_cart computes on the same pre-state, and the user's
cart document is deleted. -/
theorem checkout_success_spec (db : DB) (user_id uid : String) (cart : CartDoc)
    (resp : CheckoutResp) (db' : DB)
    (hparse : parseOId user_id = some uid)
    (hfind : findCart db.carts uid = some cart)
    (hnd : (cart.items.map (fun i => parseOId i.productId)).Nodup)
    (hu : uniqueCartUsers db.carts)
    (h : checkout db user_id = (.ok resp, db')) :
    (∀ item ∈ cart.items, ∀ pid p, parseOId item.productId = some pid →
      findProduct db.products pid = some p → item.quantity ≤ p.stock) ∧
    (∀ item ∈ cart.items, ∀ pid p, parseOId item.productId = some pid →
      findProduct db.products pid = some p →
      findProduct db'.products pid = some { p with stock := p.stock - item.quantity }) ∧
    (∃ ord v, db'.orders = db.orders ++ [ord] ∧
      (get_cart db user_id).1 = .ok v ∧ ord.total = v.total ∧ resp.total = v.total) ∧
    findCart db'.carts uid = none := by
  obtain ⟨uid2, cart2, lines, hparse2, hfind2, hne2, hloop, hid, horders, hcarts, husers⟩ :=
    checkout_ok_inv db user_id resp db' h
  rw [hparse] at hparse2
  obtain rfl : uid = uid2 := Option.some_injective _ hparse2
  rw [hfind] at hfind2
  obtain rfl : cart = cart2 := Option.some_injective _ hfind2
  have htotal := checkoutLoop_ok_total _ _ _ _ _ hloop
  refine ⟨?_, ?_, ?_, ?_⟩
  · exact checkoutLoop_ok_bound _ _ _ _ _ hnd hloop
  · intro item hm pid p hpar hfp
    have hstock := checkoutLoop_ok_stock _ _ _ _ _ hloop pid
    rw [hstock, hfp, lineQty_nodup cart.items item pid hnd hm hpar]
    rfl
  · have hps := checkoutLoop_ok_parse _ _ _ _ _ hloop
    obtain ⟨views, tot2, henr⟩ := enrichItems_isOk db.products cart.items hps
    obtain ⟨-, htot2⟩ := enrichItems_ok _ _ _ _ henr
    have hv : (get_cart db user_id).1 = .ok ⟨views, tot2⟩ := by
      unfold get_cart
      simp only [hparse, hfind]
      rw [if_neg (by simp [isEmpty_false_of_ne_nil hne2])]
      rw [henr]
    refine ⟨⟨uid, lines, resp.total⟩, ⟨views, tot2⟩, horders, hv, ?_, ?_⟩
    · show resp.total = tot2
      rw [htotal, htot2]
    · show resp.total = tot2
      rw [htotal, htot2]
  · rw [hcarts]
    exact findCart_eraseCart db.carts uid hu

/-- Witness for C1: the concrete successful checkout on `dbW1`. -/
theorem checkout_success_spec_witness :
    (∀ item ∈ (⟨uidW, [⟨pidW1, 2⟩]⟩ : CartDoc).items, ∀ pid p,
        parseOId item.productId = some pid →
        findProduct dbW1.products pid = some p → item.quantity ≤ p.stock) ∧
    (∀ item ∈ (⟨uidW, [⟨pidW1, 2⟩]⟩ : CartDoc).items, ∀ pid p,
        parseOId item.productId = some pid →
        findProduct dbW1.products pid = some p →
        findProduct dbW1'.products pid = some { p with stock := p.stock - item.quantity }) ∧
    (∃ ord v, dbW1'.orders = dbW1.orders ++ [ord] ∧
      (get_cart dbW1 uidW).1 = .ok v ∧ ord.total = v.total ∧
      (⟨0, 20⟩ : CheckoutResp).total = v.total) ∧
    findCart dbW1'.carts uidW = none :=
  checkout_success_spec dbW1 uidW uidW ⟨uidW, [⟨pidW1, 2⟩]⟩ ⟨0, 20⟩ dbW1'
    (by decide) (by decide) (by decide) (by unfold uniqueCartUsers; decide) (by decide)
